import Mathlib

/-!
Verification of the astertower Astro controller
(`pkg/controllers/astro_controller.go`) against its specification.

The Go source is shallowly embedded: the managed object (`Astro`), the
store/client interface, the key parser, the reconciler (`syncHandler` and
its three branches `syncCreate` / `syncUpdate` / `syncDelete`), the worker
loop body (`processNextWorkItem`), the event-adapter handlers
(`addAstro` / `updateAstro` / `deleteAstro`) and the control-loop driver
(`Run`) become pure Lean functions.  Side effects are made explicit:
error reports (`runtime.HandleError`) and store writes are collected in
result records, queue interactions become lists of queue operations, and
a Go runtime panic (out-of-range slice index) is represented by `none`
in an `Option` result.
-/

namespace Controllers

/-- The finalizer token owned by the controller (`AstroFinalizer` constant,
source line 26). -/
def AstroFinalizer : String := "astros.astertower.kasterism.io"

/-- The managed object (`v1alpha1.Astro`): identity, version token,
finalizer list and optional deletion-requested timestamp.
`deletionTimestamp = none` models `DeletionTimestamp.IsZero()` being true
(nil pointer or zero time). -/
structure Astro where
  ns : String
  name : String
  resourceVersion : String
  finalizers : List String
  deletionTimestamp : Option Nat
deriving DecidableEq

/-- Result of a point read from the informer lister:
`found`, a not-found error, or any other read error. -/
inductive ReadResult where
  | found (astro : Astro)
  | notFound
  | readErr (msg : String)
deriving DecidableEq

/-- The external store interface the controller consumes:
`read ns name` is `astroInformer.Lister().Astros(ns).Get(name)` and
`updateErr a` is the error component of
`astroClientset.AstertowerV1alpha1().Astros(a.ns).Update(a)`
(`none` = the persist succeeded). -/
structure Client where
  read : String → String → ReadResult
  updateErr : Astro → Option String

/-- Splitting a character list at every slash, as `strings.Split(key, "/")`
does (an empty input yields one empty part). -/
def splitSlashAux : List Char → List Char → List (List Char)
  | [], acc => [acc.reverse]
  | c :: rest, acc =>
      if c = '/' then acc.reverse :: splitSlashAux rest []
      else splitSlashAux rest (c :: acc)

/-- `strings.Split(key, "/")` on strings. -/
def splitSlash (s : String) : List String :=
  (splitSlashAux s.data []).map (fun l => String.mk l)

/-- `cache.SplitMetaNamespaceKey`: one part means a cluster-scoped name,
two parts mean namespace and name, anything else is a malformed key. -/
def SplitMetaNamespaceKey (key : String) : Except String (String × String) :=
  match splitSlash key with
  | [name] => Except.ok ("", name)
  | [ns, name] => Except.ok (ns, name)
  | _ => Except.error ("unexpected key format: " ++ key)

/-- The first phase of `syncHandler` (source lines 128-131): parse the key;
on a malformed key the code only reports via `runtime.HandleError` and
falls through with zero-valued `namespace`/`name`.  Returns
(reports, namespace, name). -/
def splitKeyReports (key : String) : List String × String × String :=
  match SplitMetaNamespaceKey key with
  | Except.error _ => (["invalid respirce key:" ++ key], "", "")
  | Except.ok (ns, name) => ([], ns, name)

/-- The three sync branches; doubles as the spec's classification states
(Deleting / Established / Pending). -/
inductive SyncAction where
  | deleting
  | established
  | pending
deriving DecidableEq

/-- Outcome of one sync branch: which branch ran, the object after local
mutation, the objects passed to the store `Update` call, the
`runtime.HandleError` reports, and the returned error. -/
structure SyncOutcome where
  action : SyncAction
  final : Astro
  updated : List Astro
  handled : List String
  err : Option String
deriving DecidableEq

/-- `syncCreate` (source lines 201-214): unconditionally append the
finalizer token to the object's finalizer list, then persist; on persist
failure report and return the error. -/
def syncCreate (c : Client) (astro : Astro) : SyncOutcome :=
  let astro' := { astro with finalizers := astro.finalizers ++ [AstroFinalizer] }
  match c.updateErr astro' with
  | some e =>
      { action := SyncAction.pending, final := astro', updated := [astro'],
        handled := [e], err := some e }
  | none =>
      { action := SyncAction.pending, final := astro', updated := [astro'],
        handled := [], err := none }

/-- `syncUpdate` (source lines 216-220): a stub that only logs and
returns nil. -/
def syncUpdate (_c : Client) (astro : Astro) : SyncOutcome :=
  { action := SyncAction.established, final := astro, updated := [],
    handled := [], err := none }

/-- The removal loop of `syncDelete` (source lines 226-231).  Go's
`range astro.Finalizers` fixes the iteration count and the backing array
at loop entry, while the loop body re-slices `astro.Finalizers`; mutations
go through the shared backing array.  So the state is the backing array
`arr` (whose length never changes) plus the current slice length `len`;
`fuel` counts the remaining iterations (`arr.length - i`, fixed at loop
entry), and `i` is the loop index.  Each iteration reads the backing array
at `i` (always in bounds in an actual run, so the `getD` default is never
consulted), and on a match executes
`astro.Finalizers[i] = astro.Finalizers[len-1]; astro.Finalizers = astro.Finalizers[:len-1]`,
which panics (modelled as `none`) when `i` is not below the current `len`. -/
def removeLoopAux : Nat → List String → Nat → Nat → Option (List String × Nat)
  | 0, arr, len, _ => some (arr, len)
  | fuel + 1, arr, len, i =>
      if arr.getD i "" = AstroFinalizer then
        if i < len then
          removeLoopAux fuel (arr.set i (arr.getD (len - 1) "")) (len - 1) (i + 1)
        else none
      else removeLoopAux fuel arr len (i + 1)

/-- The whole removal loop of `syncDelete`: run `removeLoopAux` from index
0 over the full list and keep the surviving slice
(`none` = index panic). -/
def removeFinalizers (fs : List String) : Option (List String) :=
  (removeLoopAux fs.length fs fs.length 0).map (fun p => p.1.take p.2)

/-- `syncDelete` (source lines 222-241): run the swap-remove loop over the
finalizer list, then persist the mutated object; on persist failure report
and return the error.  `none` = the loop panicked. -/
def syncDelete (c : Client) (astro : Astro) : Option SyncOutcome :=
  match removeFinalizers astro.finalizers with
  | none => none
  | some fs =>
      let astro' := { astro with finalizers := fs }
      match c.updateErr astro' with
      | some e =>
          some { action := SyncAction.deleting, final := astro', updated := [astro'],
                 handled := [e], err := some e }
      | none =>
          some { action := SyncAction.deleting, final := astro', updated := [astro'],
                 handled := [], err := none }

/-- The finalizer membership loop of `syncHandler` (source lines 145-149):
scan the list for the controller token. -/
def containsAstroFinalizer : List String → Bool
  | [] => false
  | f :: rest => if f = AstroFinalizer then true else containsAstroFinalizer rest

/-- Result of one `syncHandler` call: reports, attempted store writes,
which branch (if any) was dispatched, and the returned error. -/
structure HandlerOutcome where
  handled : List String
  updated : List Astro
  dispatched : Option SyncAction
  err : Option String
deriving DecidableEq

/-- Merge the key-parse reports with a branch outcome into the overall
`syncHandler` result. -/
def withReports (rep : List String) (o : SyncOutcome) : HandlerOutcome :=
  { handled := rep ++ o.handled, updated := o.updated,
    dispatched := some o.action, err := o.err }

/-- `syncHandler` (source lines 127-153): parse the key (reporting but
continuing on a malformed key), read the object (not-found returns nil;
other read errors report and propagate), then dispatch on the deletion
timestamp and the finalizer membership loop.  `none` = a panic inside the
dispatched branch. -/
def syncHandler (c : Client) (key : String) : Option HandlerOutcome :=
  let rep := (splitKeyReports key).1
  let ns := (splitKeyReports key).2.1
  let name := (splitKeyReports key).2.2
  match c.read ns name with
  | ReadResult.notFound =>
      some { handled := rep, updated := [], dispatched := none, err := none }
  | ReadResult.readErr e =>
      some { handled := rep ++ ["failed to get astro by: " ++ ns ++ "/" ++ name],
             updated := [], dispatched := none, err := some e }
  | ReadResult.found astro =>
      if astro.deletionTimestamp.isSome then
        (syncDelete c astro).map (withReports rep)
      else if containsAstroFinalizer astro.finalizers then
        some (withReports rep (syncUpdate c astro))
      else
        some (withReports rep (syncCreate c astro))

/-- Operations `processNextWorkItem` performs on the work queue. -/
inductive QueueOp where
  | getOp
  | doneOp
  | forgetOp
  | addRateLimitedOp
deriving DecidableEq

/-- An item pulled from the queue: a string key or something else
(the type-assertion failure path). -/
inductive Item where
  | str (key : String)
  | nonStr
deriving DecidableEq

/-- `processNextWorkItem` (source lines 98-125).  Input: the result of
`workqueue.Get()` (`none` = shutdown).  Output: the returned boolean and
the queue operations performed, in order (`Done` is deferred, so it runs
after `Forget`).  On a sync error the code only calls `Done`, reports, and
returns `false`; it never calls `AddRateLimited` or `Forget` there.
`none` = a panic propagated out of `syncHandler`. -/
def processNextWorkItem (c : Client) (got : Option Item) :
    Option (Bool × List QueueOp) :=
  match got with
  | none => some (false, [QueueOp.getOp])
  | some Item.nonStr =>
      some (true, [QueueOp.getOp, QueueOp.forgetOp, QueueOp.doneOp])
  | some (Item.str key) =>
      match syncHandler c key with
      | none => none
      | some out =>
          match out.err with
          | none => some (true, [QueueOp.getOp, QueueOp.forgetOp, QueueOp.doneOp])
          | some _ => some (false, [QueueOp.getOp, QueueOp.doneOp])

/-- The rate-limiting work queue, reduced to the only state `Run` touches:
whether it is shutting down. -/
structure Workqueue where
  shuttingDown : Bool
deriving DecidableEq

/-- `workqueue.ShutDown()`: stop accepting new work, unblock `Get`. -/
def Workqueue.ShutDown (q : Workqueue) : Workqueue :=
  { q with shuttingDown := true }

/-- `workqueue.ShuttingDown()`: a status query; returns the flag and
leaves the queue unchanged. -/
def Workqueue.ShuttingDown (q : Workqueue) : Bool × Workqueue :=
  (q.shuttingDown, q)

/-- What a `Run` call produced: the returned error, how many workers were
started, and the queue state when `Run` returned. -/
structure RunResult where
  err : Option String
  workersStarted : Nat
  finalQueue : Workqueue
deriving DecidableEq

/-- `Run` (source lines 71-91).  `cacheSyncOk` is the result of
`cache.WaitForCacheSync`.  On failure `Run` returns the error before any
worker is started; on success it starts `thread` workers and blocks on the
stop channel, returning nil once the stop signal fires.  Either way the
deferred call is `c.workqueue.ShuttingDown()` — the status query — so the
queue state is returned by that query unchanged. -/
def Run (thread : Nat) (cacheSyncOk : Bool) (q : Workqueue) : RunResult :=
  if cacheSyncOk then
    { err := none, workersStarted := thread,
      finalQueue := (Workqueue.ShuttingDown q).2 }
  else
    { err := some ("failed to wati for caches to sync"), workersStarted := 0,
      finalQueue := (Workqueue.ShuttingDown q).2 }

/-- `cache.MetaNamespaceKeyFunc` specialised to Astro objects:
`"<namespace>/<name>"`, or `"<name>"` when the namespace is empty. -/
def MetaNamespaceKeyFunc (a : Astro) : String :=
  if a.ns = "" then a.name else a.ns ++ "/" ++ a.name

/-- An enqueue performed by the event adapter: rate-limited or plain. -/
inductive AdapterOp where
  | addRL (key : String)
  | addPlain (key : String)
deriving DecidableEq

/-- `addAstro` (source lines 155-166): enqueue the object's key via
`AddRateLimited`. -/
def addAstro (a : Astro) : List AdapterOp :=
  [AdapterOp.addRL (MetaNamespaceKeyFunc a)]

/-- `deleteAstro` (source lines 168-179): enqueue the object's key via
`AddRateLimited` (`DeletionHandlingMetaNamespaceKeyFunc` computes the same
key for a live Astro object). -/
def deleteAstro (a : Astro) : List AdapterOp :=
  [AdapterOp.addRL (MetaNamespaceKeyFunc a)]

/-- `updateAstro` (source lines 181-199): if the version tokens of the old
and new objects are equal, return without enqueueing; otherwise enqueue
the new object's key via `AddRateLimited`. -/
def updateAstro (oldObj newObj : Astro) : List AdapterOp :=
  if oldObj.resourceVersion = newObj.resourceVersion then []
  else [AdapterOp.addRL (MetaNamespaceKeyFunc newObj)]

/-- The spec's classification of a successfully-read object, in the spec's
priority order: Deleting when the deletion-requested timestamp is set
(regardless of the finalizer set), else Established when the controller's
token is present in the finalizer set, else Pending. -/
def classifySpec (a : Astro) : SyncAction :=
  if a.deletionTimestamp.isSome then SyncAction.deleting
  else if AstroFinalizer ∈ a.finalizers then SyncAction.established
  else SyncAction.pending

/- Concrete fixtures used by counterexamples and witnesses. -/

/-- A client whose reads find nothing and whose persists succeed. -/
def cOk : Client :=
  { read := fun _ _ => ReadResult.notFound, updateErr := fun _ => none }

/-- A client whose reads fail with a non-not-found error. -/
def cBoom : Client :=
  { read := fun _ _ => ReadResult.readErr ("boom"), updateErr := fun _ => none }

/-- An object already carrying the controller's finalizer token. -/
def astroWithFinalizer : Astro :=
  { ns := "ns", name := "a", resourceVersion := "1",
    finalizers := [AstroFinalizer], deletionTimestamp := none }

/-- An object with a deletion-requested timestamp and the token present. -/
def astroDeleting : Astro :=
  { ns := "ns", name := "a", resourceVersion := "2",
    finalizers := [AstroFinalizer], deletionTimestamp := some 1 }

/-- A client that always serves `astroDeleting` and persists successfully. -/
def cFound : Client :=
  { read := fun _ _ => ReadResult.found astroDeleting, updateErr := fun _ => none }

/-- An object with no finalizers at all. -/
def astroBare : Astro :=
  { ns := "ns", name := "b", resourceVersion := "1",
    finalizers := ["kubernetes"], deletionTimestamp := none }

/-! ## Helper lemmas -/

theorem astroFinalizer_ne_blank : AstroFinalizer ≠ "" := by decide

/-- A `getD` read is either an element of the list or the default. -/
theorem getD_mem_or_default (l : List String) (j : Nat) (d : String) :
    l.getD j d ∈ l ∨ l.getD j d = d := by
  by_cases h : j < l.length
  · left
    rw [List.getD_eq_getElem l d h]
    exact List.getElem_mem h
  · right
    exact List.getD_eq_default l d (by omega)

/-- If the token does not occur in the backing array, every iteration of
the removal loop is a no-op. -/
theorem removeLoopAux_clean (fuel : Nat) (arr : List String) (len i : Nat)
    (h : AstroFinalizer ∉ arr) :
    removeLoopAux fuel arr len i = some (arr, len) := by
  induction fuel generalizing i with
  | zero => rfl
  | succ fuel ih =>
      have hne : ¬ arr.getD i "" = AstroFinalizer := by
        intro he
        rcases getD_mem_or_default arr i "" with hm | hd
        · rw [he] at hm
          exact h hm
        · rw [he] at hd
          exact astroFinalizer_ne_blank hd
      simp only [removeLoopAux, if_neg hne]
      exact ih (i + 1)

/-- Iterations whose reads miss the token can be skipped. -/
theorem removeLoopAux_skip (k : Nat) (fuel : Nat) (arr : List String) (len i : Nat)
    (h : ∀ j, i ≤ j → j < i + k → ¬ arr.getD j "" = AstroFinalizer) :
    removeLoopAux (k + fuel) arr len i = removeLoopAux fuel arr len (i + k) := by
  induction k generalizing i with
  | zero => simp
  | succ k ih =>
      have hne : ¬ arr.getD i "" = AstroFinalizer := h i (Nat.le_refl i) (by omega)
      have hfuel : k + 1 + fuel = (k + fuel) + 1 := by omega
      rw [hfuel]
      simp only [removeLoopAux, if_neg hne]
      rw [ih (i + 1) (fun j h1 h2 => h j (by omega) (by omega))]
      congr 1
      omega

/-- Reading the element right after a prefix. -/
theorem getD_append_length (a : List String) (v : String) (b : List String) (d : String) :
    (a ++ v :: b).getD a.length d = v := by
  induction a with
  | nil => rfl
  | cons x t ih => simpa using ih

/-- Writing the element right after a prefix. -/
theorem set_append_length (a : List String) (v w : String) (b : List String) :
    (a ++ v :: b).set a.length w = a ++ w :: b := by
  induction a with
  | nil => rfl
  | cons x t ih => simp [List.set, ih]

/-- A run of the removal loop over a list without the token keeps the
list and never goes out of bounds. -/
theorem removeFinalizers_of_not_mem (fs : List String) (h : AstroFinalizer ∉ fs) :
    removeFinalizers fs = some fs := by
  unfold removeFinalizers
  rw [removeLoopAux_clean fs.length fs fs.length 0 h]
  simp [List.take_length]

/-- Running the removal loop on a list holding exactly one occurrence of
the token: the loop stays in bounds and the result drops the token. -/
theorem removeFinalizers_single (a b : List String)
    (ha : AstroFinalizer ∉ a) (hb : AstroFinalizer ∉ b) :
    ∃ fs', removeFinalizers (a ++ AstroFinalizer :: b) = some fs' ∧
      AstroFinalizer ∉ fs' := by
  have hlen : (a ++ AstroFinalizer :: b).length = a.length + (b.length + 1) := by
    simp
  have hskip : ∀ j, 0 ≤ j → j < 0 + a.length →
      ¬ (a ++ AstroFinalizer :: b).getD j "" = AstroFinalizer := by
    intro j _ hj he
    rw [List.getD_append a (AstroFinalizer :: b) "" j (by omega)] at he
    rcases getD_mem_or_default a j "" with hm | hd
    · rw [he] at hm
      exact ha hm
    · rw [he] at hd
      exact astroFinalizer_ne_blank hd
  have hstep1 : removeLoopAux (a ++ AstroFinalizer :: b).length
      (a ++ AstroFinalizer :: b) (a ++ AstroFinalizer :: b).length 0 =
      removeLoopAux (b.length + 1) (a ++ AstroFinalizer :: b)
        (a ++ AstroFinalizer :: b).length a.length := by
    rw [hlen]
    rw [removeLoopAux_skip a.length (b.length + 1) _ _ 0 hskip]
    simp
  have hhit : (a ++ AstroFinalizer :: b).getD a.length "" = AstroFinalizer :=
    getD_append_length a AstroFinalizer b ""
  have hin : a.length < (a ++ AstroFinalizer :: b).length := by omega
  rcases List.eq_nil_or_concat' b with rfl | ⟨b', x, rfl⟩
  · -- the token is the last element: the swap is a self-assignment and the
    -- truncation drops it
    refine ⟨a, ?_, ha⟩
    unfold removeFinalizers
    rw [hstep1]
    have hl1 : (a ++ AstroFinalizer :: ([] : List String)).length - 1 = a.length := by
      simp
    have harr : (a ++ AstroFinalizer :: ([] : List String)).set a.length
        ((a ++ AstroFinalizer :: ([] : List String)).getD
          ((a ++ AstroFinalizer :: ([] : List String)).length - 1) "") =
        a ++ AstroFinalizer :: ([] : List String) := by
      rw [hl1, hhit, set_append_length]
    simp only [List.length_nil, Nat.zero_add, removeLoopAux, if_pos hhit, if_pos hin,
      hl1, Option.map_some']
    rw [hhit, set_append_length, List.take_left]
  · -- the token is followed by a non-empty tail ending in x: the swap copies
    -- x over the token and the rest of the run is clean
    have hx : ¬ x = AstroFinalizer := by
      intro he
      exact hb (by simp [he])
    have hb' : AstroFinalizer ∉ b' := fun hm => hb (by simp [hm])
    have hl2 : (a ++ AstroFinalizer :: (b' ++ [x])).length - 1 =
        (a ++ AstroFinalizer :: b').length := by
      simp
    have hget : (a ++ AstroFinalizer :: (b' ++ [x])).getD
        ((a ++ AstroFinalizer :: (b' ++ [x])).length - 1) "" = x := by
      rw [hl2]
      have hre : a ++ AstroFinalizer :: (b' ++ [x]) =
          (a ++ AstroFinalizer :: b') ++ x :: [] := by
        simp
      rw [hre, getD_append_length]
    have harr : (a ++ AstroFinalizer :: (b' ++ [x])).set a.length
        ((a ++ AstroFinalizer :: (b' ++ [x])).getD
          ((a ++ AstroFinalizer :: (b' ++ [x])).length - 1) "") =
        a ++ x :: (b' ++ [x]) := by
      rw [hget, set_append_length]
    have hnomem : AstroFinalizer ∉ a ++ x :: (b' ++ [x]) := by
      intro hm
      rcases List.mem_append.mp hm with h1 | h2
      · exact ha h1
      · rcases List.mem_cons.mp h2 with h3 | h4
        · exact hx h3.symm
        · rcases List.mem_append.mp h4 with h5 | h6
          · exact hb' h5
          · exact hx (List.mem_singleton.mp h6).symm
    refine ⟨a ++ x :: b', ?_, ?_⟩
    · unfold removeFinalizers
      rw [hstep1]
      simp only [removeLoopAux, if_pos hhit, if_pos hin, harr]
      rw [removeLoopAux_clean (b' ++ [x]).length (a ++ x :: (b' ++ [x]))
        ((a ++ AstroFinalizer :: (b' ++ [x])).length - 1) (a.length + 1) hnomem]
      have hre2 : a ++ x :: (b' ++ [x]) = (a ++ x :: b') ++ [x] := by
        simp
      have hl3 : (a ++ AstroFinalizer :: (b' ++ [x])).length - 1 =
          (a ++ x :: b').length := by
        simp
      rw [Option.map_some', hre2, hl3, List.take_left]
    · intro hm
      rcases List.mem_append.mp hm with h1 | h2
      · exact ha h1
      · rcases List.mem_cons.mp h2 with h3 | h4
        · exact hx h3.symm
        · exact hb' h4


/-- The membership loop of `syncHandler` agrees with list membership. -/
theorem containsAstroFinalizer_iff (fs : List String) :
    containsAstroFinalizer fs = true ↔ AstroFinalizer ∈ fs := by
  induction fs with
  | nil => simp [containsAstroFinalizer]
  | cons f rest ih =>
      by_cases hf : f = AstroFinalizer
      · simp [containsAstroFinalizer, hf]
      · simp [containsAstroFinalizer, hf, ih, Ne.symm hf]

/-- When the token is absent, `syncDelete` leaves the finalizer list alone
and succeeds (given a successful persist). -/
theorem syncDelete_of_not_mem (c : Client) (astro : Astro)
    (hf : AstroFinalizer ∉ astro.finalizers) (hc : ∀ a, c.updateErr a = none) :
    syncDelete c astro =
      some { action := SyncAction.deleting, final := astro, updated := [astro],
             handled := [], err := none } := by
  unfold syncDelete
  rw [removeFinalizers_of_not_mem astro.finalizers hf]
  simp only [hc]

/-- Whatever `syncDelete` returns is tagged as the deletion branch. -/
theorem syncDelete_action (c : Client) (a : Astro) (o : SyncOutcome)
    (h : syncDelete c a = some o) : o.action = SyncAction.deleting := by
  unfold syncDelete at h
  split at h
  · cases h
  · dsimp only at h
    split at h
    · cases h
      rfl
    · cases h
      rfl


/-! ## Claim theorems -/

/-- C10 counterexample: on the finalizer list `[token, token]` the removal
loop of `syncDelete` performs an out-of-range slice access (the second
iteration indexes position 1 of a slice whose length has shrunk to 1),
modelled as the `none` result — refuting the claim that the loop stays in
bounds for every possible finalizer list. -/
theorem removeFinalizers_crash_on_duplicate :
    ([AstroFinalizer, AstroFinalizer].count AstroFinalizer = 2) ∧
    removeFinalizers [AstroFinalizer, AstroFinalizer] = none := by decide

/-- C10 (amended): for every finalizer list containing at most one
occurrence of the controller token, the removal loop of `syncDelete` only
accesses indices within the bounds of the shrinking slice (it completes
without the panic result) and the resulting list contains no occurrence of
the token. -/
theorem removeFinalizers_safe_of_count_le_one (fs : List String)
    (h : fs.count AstroFinalizer ≤ 1) :
    ∃ fs', removeFinalizers fs = some fs' ∧ AstroFinalizer ∉ fs' := by
  rcases Nat.lt_or_ge (fs.count AstroFinalizer) 1 with h0 | h1
  · have hnm : AstroFinalizer ∉ fs := by
      rw [← List.count_eq_zero]
      omega
    exact ⟨fs, removeFinalizers_of_not_mem fs hnm, hnm⟩
  · have hmem : AstroFinalizer ∈ fs := List.count_pos_iff.mp (by omega)
    rcases List.append_of_mem hmem with ⟨s, t, rfl⟩
    have hcount : s.count AstroFinalizer + (t.count AstroFinalizer + 1) = 1 := by
      have := List.count_append AstroFinalizer s (AstroFinalizer :: t)
      rw [List.count_cons_self] at this
      omega
    have hs : AstroFinalizer ∉ s := by
      rw [← List.count_eq_zero]
      omega
    have ht : AstroFinalizer ∉ t := by
      rw [← List.count_eq_zero]
      omega
    exact removeFinalizers_single s t hs ht

/-- C10 witness: a concrete single-occurrence list. -/
theorem removeFinalizers_safe_of_count_le_one_witness :
    (["x", AstroFinalizer].count AstroFinalizer ≤ 1) ∧
    (∃ fs', removeFinalizers ["x", AstroFinalizer] = some fs' ∧
      AstroFinalizer ∉ fs') :=
  ⟨by decide, removeFinalizers_safe_of_count_le_one ["x", AstroFinalizer] (by decide)⟩

/-- C6: deletion handling tolerates the controller token being absent:
for every object whose finalizer list does not contain the token (and a
store whose persists succeed), `syncDelete` leaves the finalizer list
unchanged and returns no error; running it a second time on the resulting
object again returns no error. -/
theorem syncDelete_tolerates_absent_token (c : Client) (astro : Astro)
    (hf : AstroFinalizer ∉ astro.finalizers) (hc : ∀ a, c.updateErr a = none) :
    ∃ o, syncDelete c astro = some o ∧ o.final.finalizers = astro.finalizers ∧
      o.err = none ∧
      ∃ o₂, syncDelete c o.final = some o₂ ∧ o₂.err = none := by
  refine ⟨_, syncDelete_of_not_mem c astro hf hc, rfl, rfl, ?_⟩
  exact ⟨_, syncDelete_of_not_mem c astro hf hc, rfl⟩

/-- C6 witness: an object whose only finalizer belongs to someone else. -/
theorem syncDelete_tolerates_absent_token_witness :
    (AstroFinalizer ∉ astroBare.finalizers) ∧
    (∃ o, syncDelete cOk astroBare = some o ∧
      o.final.finalizers = astroBare.finalizers ∧ o.err = none ∧
      ∃ o₂, syncDelete cOk o.final = some o₂ ∧ o₂.err = none) :=
  ⟨by decide, syncDelete_tolerates_absent_token cOk astroBare (by decide)
    (fun _ => rfl)⟩

/-- C1 counterexample: `syncCreate` run on an object whose finalizer list
already contains the controller token (with a successful persist) does not
leave the finalizer list unchanged — it appends a second occurrence. -/
theorem syncCreate_duplicates_token :
    (syncCreate cOk astroWithFinalizer).final.finalizers ≠
      astroWithFinalizer.finalizers ∧
    (syncCreate cOk astroWithFinalizer).final.finalizers =
      [AstroFinalizer, AstroFinalizer] ∧
    (syncCreate cOk astroWithFinalizer).err = none := by decide

/-- C1 (amended): `syncCreate` unconditionally appends one occurrence of
the controller token to the finalizer list (so an object that already
contains the token gains a second occurrence), and returns no error when
the persist of the mutated object succeeds. -/
theorem syncCreate_appends_token (c : Client) (astro : Astro)
    (hc : c.updateErr
      { astro with finalizers := astro.finalizers ++ [AstroFinalizer] } = none) :
    (syncCreate c astro).final.finalizers =
      astro.finalizers ++ [AstroFinalizer] ∧
    (syncCreate c astro).err = none := by
  simp [syncCreate, hc]

/-- C1 witness: an object without the token. -/
theorem syncCreate_appends_token_witness :
    (cOk.updateErr { astroBare with
        finalizers := astroBare.finalizers ++ [AstroFinalizer] } = none) ∧
    ((syncCreate cOk astroBare).final.finalizers =
        astroBare.finalizers ++ [AstroFinalizer] ∧
      (syncCreate cOk astroBare).err = none) :=
  ⟨rfl, syncCreate_appends_token cOk astroBare rfl⟩

/-- C2: on a key whose sync fails, `processNextWorkItem` neither
re-enqueues the key via `AddRateLimited` nor forgets it: it only calls
`Get` and the deferred `Done`, and returns `false` (exiting the worker
loop) — the code drops failing keys instead of scheduling a backoff retry,
contradicting the claim. -/
theorem processNextWorkItem_drops_failing_key :
    processNextWorkItem cBoom (some (Item.str ("ns/a"))) =
      some (false, [QueueOp.getOp, QueueOp.doneOp]) ∧
    QueueOp.addRateLimitedOp ∉ [QueueOp.getOp, QueueOp.doneOp] ∧
    QueueOp.forgetOp ∉ [QueueOp.getOp, QueueOp.doneOp] := by decide

/-- C7: `Run` never invokes the queue's `ShutDown` operation: its deferred
call is the side-effect-free status query `ShuttingDown`, so after `Run`
returns (here: two workers, successful cache sync, stop fired) the queue
still reports that it is not shutting down, whereas an actual `ShutDown`
call would have set the flag. -/
theorem run_leaves_queue_unshut :
    (Run 2 true { shuttingDown := false }).finalQueue.shuttingDown = false ∧
    (Workqueue.ShutDown { shuttingDown := false }).shuttingDown = true := by
  decide

/-- C8: `Run` returns an error exactly when the initial cache sync fails,
and starts no workers in that case; when the sync succeeds it returns nil
(after the stop signal fires) having started the requested number of
workers. -/
theorem run_error_iff_sync_fails (thread : Nat) (ok : Bool) (q : Workqueue) :
    ((Run thread ok q).err = none ↔ ok = true) ∧
    (Run thread ok q).workersStarted = (if ok then thread else 0) ∧
    (Run thread ok q).err =
      (if ok then none else some ("failed to wati for caches to sync")) := by
  cases ok <;> simp [Run, Workqueue.ShuttingDown]

/-- C9: the event adapter suppresses update notifications whose version
token is unchanged and otherwise enqueues the new object's key; every
enqueue performed by the add, update and delete handlers is a rate-limited
enqueue, never a plain add. -/
theorem eventAdapter_enqueues (oldObj newObj a : Astro) :
    updateAstro oldObj newObj =
      (if oldObj.resourceVersion = newObj.resourceVersion then []
       else [AdapterOp.addRL (MetaNamespaceKeyFunc newObj)]) ∧
    addAstro a = [AdapterOp.addRL (MetaNamespaceKeyFunc a)] ∧
    deleteAstro a = [AdapterOp.addRL (MetaNamespaceKeyFunc a)] ∧
    (∀ k, AdapterOp.addPlain k ∉ updateAstro oldObj newObj) ∧
    (∀ k, AdapterOp.addPlain k ∉ addAstro a) ∧
    (∀ k, AdapterOp.addPlain k ∉ deleteAstro a) := by
  refine ⟨rfl, rfl, rfl, ?_, ?_, ?_⟩
  · intro k
    unfold updateAstro
    by_cases h : oldObj.resourceVersion = newObj.resourceVersion <;> simp [h]
  · intro k
    simp [addAstro]
  · intro k
    simp [deleteAstro]


/-- C3: for a successfully-read object, `syncHandler` dispatches to exactly
one of the three branches with the spec's priority: deletion handling
whenever the deletion timestamp is set (regardless of the finalizer list),
else update handling when the controller token is present, else creation
handling; the dispatched branch always equals the spec-side
classification. -/
theorem syncHandler_classifies (c : Client) (key : String) (astro : Astro)
    (hread : c.read (splitKeyReports key).2.1 (splitKeyReports key).2.2 =
      ReadResult.found astro) :
    (astro.deletionTimestamp.isSome = true →
      syncHandler c key =
        (syncDelete c astro).map (withReports (splitKeyReports key).1)) ∧
    (astro.deletionTimestamp.isSome = false →
      AstroFinalizer ∈ astro.finalizers →
      syncHandler c key =
        some (withReports (splitKeyReports key).1 (syncUpdate c astro))) ∧
    (astro.deletionTimestamp.isSome = false →
      AstroFinalizer ∉ astro.finalizers →
      syncHandler c key =
        some (withReports (splitKeyReports key).1 (syncCreate c astro))) ∧
    (∀ o, syncHandler c key = some o →
      o.dispatched = some (classifySpec astro)) := by
  have hsync : syncHandler c key =
      (if astro.deletionTimestamp.isSome then
        (syncDelete c astro).map (withReports (splitKeyReports key).1)
      else if containsAstroFinalizer astro.finalizers then
        some (withReports (splitKeyReports key).1 (syncUpdate c astro))
      else
        some (withReports (splitKeyReports key).1 (syncCreate c astro))) := by
    unfold syncHandler
    dsimp only
    rw [hread]
  refine ⟨?_, ?_, ?_, ?_⟩
  · intro hts
    rw [hsync]
    simp [hts]
  · intro hts hmem
    rw [hsync]
    simp [hts, (containsAstroFinalizer_iff astro.finalizers).mpr hmem]
  · intro hts hmem
    have hcf : containsAstroFinalizer astro.finalizers = false := by
      cases hb : containsAstroFinalizer astro.finalizers
      · rfl
      · exact absurd ((containsAstroFinalizer_iff _).mp hb) hmem
    rw [hsync]
    simp [hts, hcf]
  · intro o ho
    rw [hsync] at ho
    by_cases hts : astro.deletionTimestamp.isSome
    · rw [if_pos hts] at ho
      cases hsd : syncDelete c astro with
      | none =>
          rw [hsd] at ho
          cases ho
      | some o' =>
          rw [hsd] at ho
          simp only [Option.map_some', Option.some.injEq] at ho
          rw [← ho]
          simp [withReports, syncDelete_action c astro o' hsd, classifySpec, hts]
    · rw [if_neg hts] at ho
      cases hb : containsAstroFinalizer astro.finalizers
      · rw [hb] at ho
        simp only [Bool.false_eq_true, if_false, Option.some.injEq] at ho
        rw [← ho]
        have hnm : AstroFinalizer ∉ astro.finalizers := fun hm =>
          by rw [(containsAstroFinalizer_iff _).mpr hm] at hb; cases hb
        simp [withReports, syncCreate, classifySpec, hts, hnm]
        cases hue : c.updateErr { astro with
            finalizers := astro.finalizers ++ [AstroFinalizer] } <;> simp [hue]
      · rw [hb] at ho
        simp only [if_true, Option.some.injEq] at ho
        rw [← ho]
        have hm : AstroFinalizer ∈ astro.finalizers :=
          (containsAstroFinalizer_iff _).mp hb
        simp [withReports, syncUpdate, classifySpec, hts, hm]

/-- C3 witness: a deleting object with the finalizer present is read
successfully and dispatched per the spec classification. -/
theorem syncHandler_classifies_witness :
    (cFound.read (splitKeyReports ("ns/a")).2.1 (splitKeyReports ("ns/a")).2.2 =
      ReadResult.found astroDeleting) ∧
    ((astroDeleting.deletionTimestamp.isSome = true →
      syncHandler cFound ("ns/a") =
        (syncDelete cFound astroDeleting).map
          (withReports (splitKeyReports ("ns/a")).1)) ∧
    (astroDeleting.deletionTimestamp.isSome = false →
      AstroFinalizer ∈ astroDeleting.finalizers →
      syncHandler cFound ("ns/a") =
        some (withReports (splitKeyReports ("ns/a")).1
          (syncUpdate cFound astroDeleting))) ∧
    (astroDeleting.deletionTimestamp.isSome = false →
      AstroFinalizer ∉ astroDeleting.finalizers →
      syncHandler cFound ("ns/a") =
        some (withReports (splitKeyReports ("ns/a")).1
          (syncCreate cFound astroDeleting))) ∧
    (∀ o, syncHandler cFound ("ns/a") = some o →
      o.dispatched = some (classifySpec astroDeleting))) :=
  ⟨rfl, syncHandler_classifies cFound ("ns/a") astroDeleting rfl⟩

/-- C4: when the read comes back not-found, `syncHandler` returns no error
(and attempts no write and no dispatch), and the worker consequently calls
`Forget` for the key — no retry is scheduled. -/
theorem syncHandler_notFound_success (c : Client) (key : String)
    (h : c.read (splitKeyReports key).2.1 (splitKeyReports key).2.2 =
      ReadResult.notFound) :
    syncHandler c key =
      some { handled := (splitKeyReports key).1, updated := [],
             dispatched := none, err := none } ∧
    processNextWorkItem c (some (Item.str key)) =
      some (true, [QueueOp.getOp, QueueOp.forgetOp, QueueOp.doneOp]) := by
  have h1 : syncHandler c key =
      some { handled := (splitKeyReports key).1, updated := [],
             dispatched := none, err := none } := by
    unfold syncHandler
    dsimp only
    rw [h]
  refine ⟨h1, ?_⟩
  unfold processNextWorkItem
  dsimp only
  rw [h1]

/-- C4 witness: the key of an absent object. -/
theorem syncHandler_notFound_success_witness :
    (cOk.read (splitKeyReports ("ns/ghost")).2.1
      (splitKeyReports ("ns/ghost")).2.2 = ReadResult.notFound) ∧
    (syncHandler cOk ("ns/ghost") =
      some { handled := (splitKeyReports ("ns/ghost")).1, updated := [],
             dispatched := none, err := none } ∧
    processNextWorkItem cOk (some (Item.str ("ns/ghost"))) =
      some (true, [QueueOp.getOp, QueueOp.forgetOp, QueueOp.doneOp])) :=
  ⟨rfl, syncHandler_notFound_success cOk ("ns/ghost") rfl⟩

/-- C5: on a malformed key (the key parser rejects it), `syncHandler`
reports the problem, attempts no store write, dispatches no branch and
returns no error, and the worker consequently forgets the key — it is
never retried.  (After the report the code falls through and reads the
store with empty namespace and name; the hypothesis that this read is
not-found holds for every real store, since no object has an empty
name.) -/
theorem syncHandler_malformed_handled (c : Client) (key e : String)
    (hk : SplitMetaNamespaceKey key = Except.error e)
    (hr : c.read "" "" = ReadResult.notFound) :
    syncHandler c key =
      some { handled := ["invalid respirce key:" ++ key], updated := [],
             dispatched := none, err := none } ∧
    processNextWorkItem c (some (Item.str key)) =
      some (true, [QueueOp.getOp, QueueOp.forgetOp, QueueOp.doneOp]) := by
  have hsk : splitKeyReports key = (["invalid respirce key:" ++ key], "", "") := by
    unfold splitKeyReports
    rw [hk]
  have h1 : syncHandler c key =
      some { handled := ["invalid respirce key:" ++ key], updated := [],
             dispatched := none, err := none } := by
    unfold syncHandler
    rw [hsk]
    dsimp only
    rw [hr]
  refine ⟨h1, ?_⟩
  unfold processNextWorkItem
  dsimp only
  rw [h1]

/-- C5 witness: a two-slash key is malformed, reported, and forgotten. -/
theorem syncHandler_malformed_handled_witness :
    (SplitMetaNamespaceKey ("a/b/c") =
      Except.error ("unexpected key format: " ++ "a/b/c")) ∧
    (cOk.read "" "" = ReadResult.notFound) ∧
    (syncHandler cOk ("a/b/c") =
      some { handled := ["invalid respirce key:" ++ "a/b/c"], updated := [],
             dispatched := none, err := none } ∧
    processNextWorkItem cOk (some (Item.str ("a/b/c"))) =
      some (true, [QueueOp.getOp, QueueOp.forgetOp, QueueOp.doneOp])) :=
  ⟨rfl, rfl, syncHandler_malformed_handled cOk ("a/b/c")
    ("unexpected key format: " ++ "a/b/c") rfl rfl⟩

end Controllers
